import Mathlib

/-!
# Verification of the LADP portfolio-analytics core

Shallow embedding, in Lean 4, of the numeric core and the tool-dispatch
protocol of the LADP finance chatbot:

* `features/analytics/portfolio.py` — `_ensure_returns`, `max_drawdown`,
  `compute_portfolio_metrics` (frequency inference, metrics).
* `features/excel/loader.py` — `get_fund_series`.
* `appp.py` (module-level tool dispatcher) and `features/llm/chat.py`
  (`ask_llm`).

## Number model

The Python code computes with IEEE-754 doubles through numpy / pandas.  We
model a double as a `Qf` (for series-level arithmetic, carrier `ℚ`) or an
`Rf` (for the final metric scalars, carrier `ℝ`, needed because the code
takes fractional powers and square roots): a value is either the quiet NaN
produced by numpy (`nan`), one of the two infinities (`inf`, `ninf`), or a
finite value.  Arithmetic follows the IEEE rules numpy implements for these
operations (NaN propagation, `x/0` with `x ≠ 0` giving a signed infinity,
`0/0` giving NaN, negative base to a non-integer power giving NaN, any base
to the power `0` giving `1`).  Rounding of finite values is not modelled:
finite arithmetic is exact.  The negative zero is not modelled; `0` is the
IEEE `+0`.
-/

/-- A numpy/pandas double restricted to rational finite values: NaN, the two
infinities, or a finite (exact) value.  Used for all series-level
computations of `portfolio.py`, which only add, subtract, multiply, divide
and compare. -/
inductive Qf where
  | nan : Qf
  | inf : Qf
  | ninf : Qf
  | fin : ℚ → Qf
deriving DecidableEq

/-- `True` exactly on the NaN value (what `pandas.dropna` / `pd.isna` test). -/
def Qf.isNan : Qf → Bool
  | .nan => true
  | _ => false

/-- IEEE negation. -/
def Qf.neg : Qf → Qf
  | .nan => .nan
  | .inf => .ninf
  | .ninf => .inf
  | .fin x => .fin (-x)

/-- IEEE addition (numpy `+`): NaN propagates, `inf + (-inf)` is NaN. -/
def Qf.add : Qf → Qf → Qf
  | .nan, _ => .nan
  | _, .nan => .nan
  | .fin x, .fin y => .fin (x + y)
  | .inf, .ninf => .nan
  | .ninf, .inf => .nan
  | .inf, _ => .inf
  | _, .inf => .inf
  | .ninf, _ => .ninf
  | _, .ninf => .ninf

/-- IEEE subtraction. -/
def Qf.sub (a b : Qf) : Qf := Qf.add a (Qf.neg b)

/-- IEEE multiplication (numpy `*`): NaN propagates, `inf * 0` is NaN. -/
def Qf.mul : Qf → Qf → Qf
  | .nan, _ => .nan
  | _, .nan => .nan
  | .fin x, .fin y => .fin (x * y)
  | .inf, .fin y => if 0 < y then .inf else if y < 0 then .ninf else .nan
  | .fin x, .inf => if 0 < x then .inf else if x < 0 then .ninf else .nan
  | .ninf, .fin y => if 0 < y then .ninf else if y < 0 then .inf else .nan
  | .fin x, .ninf => if 0 < x then .ninf else if x < 0 then .inf else .nan
  | .inf, .inf => .inf
  | .inf, .ninf => .ninf
  | .ninf, .inf => .ninf
  | .ninf, .ninf => .inf

/-- IEEE division (numpy `/`): NaN propagates, `0/0` is NaN, a nonzero
finite value divided by `0` is a signed infinity (the zero here is `+0`),
a finite value divided by an infinity is `0`, `inf/inf` is NaN. -/
def Qf.div : Qf → Qf → Qf
  | .nan, _ => .nan
  | _, .nan => .nan
  | .fin x, .fin y =>
      if y = 0 then (if x = 0 then .nan else if 0 < x then .inf else .ninf)
      else .fin (x / y)
  | .fin _, .inf => .fin 0
  | .fin _, .ninf => .fin 0
  | .inf, .fin y => if y < 0 then .ninf else .inf
  | .ninf, .fin y => if y < 0 then .inf else .ninf
  | .inf, .inf => .nan
  | .inf, .ninf => .nan
  | .ninf, .inf => .nan
  | .ninf, .ninf => .nan

/-- `np.maximum`: NaN propagates (unlike `np.fmax`). -/
def Qf.max2 : Qf → Qf → Qf
  | .nan, _ => .nan
  | _, .nan => .nan
  | .inf, _ => .inf
  | _, .inf => .inf
  | .ninf, y => y
  | x, .ninf => x
  | .fin x, .fin y => .fin (max x y)

/-- `np.minimum`: NaN propagates. -/
def Qf.min2 : Qf → Qf → Qf
  | .nan, _ => .nan
  | _, .nan => .nan
  | .ninf, _ => .ninf
  | _, .ninf => .ninf
  | .inf, y => y
  | x, .inf => x
  | .fin x, .fin y => .fin (min x y)

/-- Sum of a series (`pandas.Series.sum` over a NaN-free series — the code
only sums series it has already passed through `dropna`). -/
def Qf.sum (l : List Qf) : Qf := l.foldl Qf.add (Qf.fin 0)

/-- Product of a series (`pandas.Series.prod` over a NaN-free series). -/
def Qf.prod (l : List Qf) : Qf := l.foldl Qf.mul (Qf.fin 1)

-- --------------------------------------------------------------------- --
-- features/analytics/portfolio.py : max_drawdown                        --
-- --------------------------------------------------------------------- --

/-- `np.cumprod`, with a running accumulator. -/
def cumprodAux (acc : Qf) : List Qf → List Qf
  | [] => []
  | x :: xs =>
      let a := Qf.mul acc x
      a :: cumprodAux a xs

/-- `np.cumprod(1.0 + prices)`: the equity curve built from a return
series in `max_drawdown` when `is_prices=False`. -/
def cumprod1p (s : List Qf) : List Qf :=
  cumprodAux (Qf.fin 1) (s.map (Qf.add (Qf.fin 1)))

/-- Tail worker of `np.maximum.accumulate`. -/
def runningMaxAux (acc : Qf) : List Qf → List Qf
  | [] => []
  | x :: xs =>
      let m := Qf.max2 acc x
      m :: runningMaxAux m xs

/-- `np.maximum.accumulate`: running peaks of the price curve. -/
def runningMax : List Qf → List Qf
  | [] => []
  | x :: xs => x :: runningMaxAux x xs

/-- `np.ndarray.min()` as a reduction of `np.minimum`; on a zero-size array
numpy raises `ValueError: zero-size array to reduction operation minimum
which has no identity`, modelled as `none`. -/
def minReduce : List Qf → Option Qf
  | [] => none
  | x :: xs => some (xs.foldl Qf.min2 x)

/-- `portfolio.max_drawdown(series, is_prices)` (portfolio.py lines 63-84).
`series is None` returns NaN; otherwise the drawdown curve
`(prices - peaks) / peaks` is reduced with `.min()`, which raises on an
empty array (modelled as `Except.error` carrying numpy's message). -/
def max_drawdown (series : Option (List Qf)) (is_prices : Bool) :
    Except String Qf :=
  match series with
  | none => .ok Qf.nan
  | some s =>
      let prices := if is_prices then s else cumprod1p s
      let peaks := runningMax prices
      let drawdowns := prices.zipWith (fun p pk => Qf.div (Qf.sub p pk) pk) peaks
      match minReduce drawdowns with
      | none => .error "zero-size array to reduction operation minimum which has no identity"
      | some m => .ok m

-- --------------------------------------------------------------------- --
-- features/analytics/portfolio.py : _ensure_returns                     --
-- --------------------------------------------------------------------- --

/-- `pandas.Series.pct_change()` (no forward-fill of input NaNs, i.e.
`fill_method=None`): entry `i` is `s[i] / s[i-1] - 1`, with a NaN in front
because the first observation has no predecessor. -/
def pct_change (s : List Qf) : List Qf :=
  s.zipWith (fun x prev => Qf.sub (Qf.div x prev) (Qf.fin 1)) (Qf.nan :: s)

/-- The returns series of `_ensure_returns` *before* the final `dropna`
(portfolio.py lines 47-53): `pct_change` when the input is prices, a copy
otherwise, then an optional division by 100. -/
def rawReturns (s : List Qf) (is_prices returns_are_percent : Bool) : List Qf :=
  let returns := if is_prices then pct_change s else s
  if returns_are_percent then returns.map (fun x => Qf.div x (Qf.fin 100)) else returns

/-- `portfolio._ensure_returns(series, is_prices, returns_are_percent)`
(portfolio.py lines 38-55): `rawReturns` followed by `dropna()`, which
removes the NaN entries (and only those — infinities survive `dropna`). -/
def ensure_returns (s : List Qf) (is_prices returns_are_percent : Bool) : List Qf :=
  (rawReturns s is_prices returns_are_percent).filter (fun x => !x.isNan)

-- --------------------------------------------------------------------- --
-- features/analytics/portfolio.py : frequency inference                 --
-- --------------------------------------------------------------------- --

/-- Insertion into a sorted list (ascending). -/
def insertSorted (x : ℚ) : List ℚ → List ℚ
  | [] => [x]
  | y :: ys => if x ≤ y then x :: y :: ys else y :: insertSorted x ys

/-- Insertion sort, ascending — models `pandas.Series.sort_values()`. -/
def sortQ : List ℚ → List ℚ
  | [] => []
  | x :: xs => insertSorted x (sortQ xs)

/-- Consecutive differences — models `Series.diff()` with the leading NaT
dropped (the `median` that follows skips it anyway). -/
def diffsQ : List ℚ → List ℚ
  | [] => []
  | [_] => []
  | x :: y :: rest => (y - x) :: diffsQ (y :: rest)

/-- `pandas.Series.median()`: middle of the sorted values, or the mean of
the two middle values for an even count; `none` on an empty series. -/
def medianQ (l : List ℚ) : Option ℚ :=
  if l = [] then none
  else
    let s := sortQ l
    let n := s.length
    if n % 2 = 1 then some (s.getD (n / 2) 0)
    else some ((s.getD (n / 2 - 1) 0 + s.getD (n / 2) 0) / 2)

/-- The date-based tier of the frequency inference
(portfolio.py lines 128-140).  A date is modelled as an already-parsed
timestamp measured in days (`pd.to_datetime(..., errors="coerce")` yields
`none` for an unparseable entry, dropped by `dropna()`).  With at least two
usable dates, the median spacing of consecutive sorted dates is bucketed:
[350, 370] days → 1, [27, 31] days → 12, [1/2, 3/2] days → 252; any other
spacing falls through (`none`). -/
def inferFromDates (dates : List (Option ℚ)) : Option ℕ :=
  let ds := dates.filterMap id
  if ds.length ≤ 1 then none
  else
    match medianQ (diffsQ (sortQ ds)) with
    | none => none
    | some days =>
        if 350 ≤ days ∧ days ≤ 370 then some 1
        else if 27 ≤ days ∧ days ≤ 31 then some 12
        else if 1/2 ≤ days ∧ days ≤ 3/2 then some 252
        else none

/-- The length-based tier (portfolio.py line 144):
`1 if n <= 12 else 12 if n <= 60 else 252`, on the *returns* count. -/
def lengthHeuristic (n : ℕ) : ℕ :=
  if n ≤ 12 then 1 else if n ≤ 60 then 12 else 252

/-- The full three-tier `periods_per_year` selection of
`compute_portfolio_metrics` (portfolio.py lines 127-144): an explicit value
is used as-is; otherwise date-based inference; otherwise the length
heuristic on the number of usable returns. -/
def choosePeriods (periods_per_year : Option ℕ)
    (dates : Option (List (Option ℚ))) (n : ℕ) : ℕ :=
  match periods_per_year with
  | some p => p
  | none =>
      match dates with
      | some ds =>
          match inferFromDates ds with
          | some p => p
          | none => lengthHeuristic n
      | none => lengthHeuristic n

-- --------------------------------------------------------------------- --
-- features/analytics/portfolio.py : compute_portfolio_metrics           --
-- --------------------------------------------------------------------- --

/-- A numpy double with a real (possibly irrational) finite carrier.  The
final metric scalars need this because the code takes fractional powers and
square roots of its (rational) intermediate values. -/
inductive Rf where
  | nan : Rf
  | inf : Rf
  | ninf : Rf
  | fin : ℝ → Rf

/-- Exact coercion of a series-level value into the scalar domain. -/
def Qf.toRf : Qf → Rf
  | .nan => .nan
  | .inf => .inf
  | .ninf => .ninf
  | .fin q => .fin (q : ℝ)

/-- IEEE addition on `Rf` (same rules as `Qf.add`). -/
def Rf.add : Rf → Rf → Rf
  | .nan, _ => .nan
  | _, .nan => .nan
  | .fin x, .fin y => .fin (x + y)
  | .inf, .ninf => .nan
  | .ninf, .inf => .nan
  | .inf, _ => .inf
  | _, .inf => .inf
  | .ninf, _ => .ninf
  | _, .ninf => .ninf

/-- IEEE negation on `Rf`. -/
def Rf.neg : Rf → Rf
  | .nan => .nan
  | .inf => .ninf
  | .ninf => .inf
  | .fin x => .fin (-x)

/-- IEEE subtraction on `Rf`. -/
def Rf.sub (a b : Rf) : Rf := Rf.add a (Rf.neg b)

open Classical in
/-- IEEE multiplication on `Rf` (same rules as `Qf.mul`). -/
noncomputable def Rf.mul : Rf → Rf → Rf
  | .nan, _ => .nan
  | _, .nan => .nan
  | .fin x, .fin y => .fin (x * y)
  | .inf, .fin y => if 0 < y then .inf else if y < 0 then .ninf else .nan
  | .fin x, .inf => if 0 < x then .inf else if x < 0 then .ninf else .nan
  | .ninf, .fin y => if 0 < y then .ninf else if y < 0 then .inf else .nan
  | .fin x, .ninf => if 0 < x then .ninf else if x < 0 then .inf else .nan
  | .inf, .inf => .inf
  | .inf, .ninf => .ninf
  | .ninf, .inf => .ninf
  | .ninf, .ninf => .inf

/-- Whether a rational exponent is an integer (numpy distinguishes integral
from non-integral float exponents for negative bases). -/
def qIsInt (e : ℚ) : Bool := e.den = 1

open Classical in
/-- numpy `**` on a double base and an exponent that is mathematically the
rational `e` (the code's exponents are `1.0 / n_periods` and
`periods_per_year`).  Rules (numpy float64 `power`):
any base to the power `0` is `1` (NaN included); NaN propagates otherwise;
a positive base gives the real power; `0` to a positive power is `0`, to a
negative power `inf`; a negative base gives the integer power if `e` is
integral and NaN otherwise; `inf` to a positive power is `inf`, to a
negative power `0`; `-inf` to a positive power is `-inf` for odd integral
`e` and `inf` otherwise, and `0` to a negative power. -/
noncomputable def npPow : Rf → ℚ → Rf
  | b, e =>
    if e = 0 then Rf.fin 1
    else
      match b with
      | .nan => .nan
      | .inf => if 0 < e then .inf else .fin 0
      | .ninf =>
          if 0 < e then (if qIsInt e ∧ e.num % 2 ≠ 0 then .ninf else .inf)
          else .fin 0
      | .fin x =>
          if x = 0 then (if 0 < e then .fin 0 else .inf)
          else if 0 < x then .fin (Real.rpow x (e : ℝ))
          else if qIsInt e then .fin (x ^ e.num) else .nan

/-- numpy `sqrt` of a series-level value: NaN for a negative argument. -/
noncomputable def sqrtQf : Qf → Rf
  | .nan => .nan
  | .inf => .inf
  | .ninf => .nan
  | .fin q => if q < 0 then .nan else .fin (Real.sqrt (q : ℝ))

/-- Population variance of a series
(`pandas.Series.std(ddof=0)` squared): mean of squared deviations. -/
def variancePop (l : List Qf) : Qf :=
  let n : Qf := Qf.fin (l.length : ℚ)
  let mean := Qf.div (Qf.sum l) n
  Qf.div (Qf.sum (l.map (fun x => Qf.mul (Qf.sub x mean) (Qf.sub x mean)))) n

/-- The `compute_portfolio_metrics` Metrics Result: the four named scalars,
each a double (finite or NaN). -/
structure Metrics where
  cumulative_return : Rf
  annualized_return : Rf
  annualized_volatility : Rf
  max_drawdown : Rf

/-- `cumulative_return = (1.0 + returns_series).prod() - 1.0`
(portfolio.py line 154). -/
def cumulativeOf (rs : List Qf) : Qf :=
  Qf.sub (Qf.prod (rs.map (Qf.add (Qf.fin 1)))) (Qf.fin 1)

/-- Body of `compute_portfolio_metrics` after normalization and frequency
selection (portfolio.py lines 146-172): the early all-NaN result on an
empty returns series, else the four metrics.  `annualized_return` is the
geometric-mean decomposition
`(1 + ((1 + cum) ** (1/n) - 1)) ** periods_per_year - 1`; the drawdown is
taken from the raw series when `is_prices` and from the normalized returns
otherwise.  The `Except` propagates the (unreachable here) numpy raise of
`max_drawdown` on an empty array. -/
noncomputable def metricsCore (s : List Qf) (is_prices : Bool)
    (rs : List Qf) (ppy : ℕ) : Except String Metrics :=
  if rs.isEmpty then .ok ⟨Rf.nan, Rf.nan, Rf.nan, Rf.nan⟩
  else
    let cum := cumulativeOf rs
    let n := rs.length
    let gm := Rf.sub (npPow (Rf.add (Rf.fin 1) cum.toRf) (1 / (n : ℚ))) (Rf.fin 1)
    let ann := Rf.sub (npPow (Rf.add (Rf.fin 1) gm) ((ppy : ℚ))) (Rf.fin 1)
    let vol := Rf.mul (sqrtQf (variancePop rs)) (Rf.fin (Real.sqrt (ppy : ℝ)))
    (max_drawdown (some (if is_prices then s else rs)) is_prices).map
      (fun m => ⟨cum.toRf, ann, vol, m.toRf⟩)

/-- `portfolio.compute_portfolio_metrics(series, is_prices,
periods_per_year, risk_free_rate, returns_are_percent, dates)`
(portfolio.py lines 102-172; `risk_free_rate` is unused in the source and
omitted): normalize to returns, select `periods_per_year` by the
three-tier rule, then compute the metrics. -/
noncomputable def compute_portfolio_metrics (series : List Qf)
    (is_prices : Bool) (periods_per_year : Option ℕ)
    (returns_are_percent : Bool) (dates : Option (List (Option ℚ))) :
    Except String Metrics :=
  let rs := ensure_returns series is_prices returns_are_percent
  metricsCore series is_prices rs (choosePeriods periods_per_year dates rs.length)

-- --------------------------------------------------------------------- --
-- features/excel/loader.py : get_fund_series                            --
-- --------------------------------------------------------------------- --

/-- A loaded sheet: named column headers over string-rendered cells
(`load_excel` hands `get_fund_series` a `DataFrame`, whose cells the
function immediately renders with `astype(str)`; we model a cell as that
string).  Rows are positional, as a default `RangeIndex`. -/
structure Table where
  headers : List String
  rows : List (List String)

/-- `DataFrame.empty`: no rows or no columns. -/
def Table.isEmpty (t : Table) : Bool := t.rows.isEmpty || t.headers.isEmpty

/-- Column `j`, over all rows; a missing cell renders as the empty string,
which never parses to a number (pandas renders it as the non-numeric
string `nan`, likewise dropped). -/
def Table.col (t : Table) (j : ℕ) : List String :=
  t.rows.map (fun r => r.getD j "")

/-- Drop leading and trailing whitespace from a character list
(Python `str.strip()`). -/
def trimChars (cs : List Char) : List Char :=
  ((cs.dropWhile Char.isWhitespace).reverse.dropWhile Char.isWhitespace).reverse

/-- `str.strip().lower()` — the normalization applied to the fund name,
the headers and the first-row labels — as a character list (two Python
strings are equal iff their character lists are). -/
def normKey (s : String) : List Char :=
  (trimChars s.toList).map Char.toLower

/-- First index of `key` in a list (Python `list.index` /
first position of a pandas boolean mask). -/
def firstIdx {α : Type} [DecidableEq α] (key : α) : List α → Option ℕ
  | [] => none
  | s :: rest => if s = key then some 0 else (firstIdx key rest).map (· + 1)

/-- `str.replace(pat, "")` for a one-character pattern: remove every
occurrence of that character. -/
def removeAll (c : Char) (cs : List Char) : List Char :=
  cs.filter (fun x => x ≠ c)

/-- Value of a digit string, accumulated in `ℕ` (the characters are
checked to be digits before this is used). -/
def digitsNat (cs : List Char) : ℕ :=
  cs.foldl (fun a c => 10 * a + (c.toNat - 48)) 0

/-- Split a character list at the first point, if any. -/
def splitDot : List Char → List Char × Option (List Char)
  | [] => ([], none)
  | c :: cs =>
      if c = '.' then ([], some cs)
      else
        let (a, b) := splitDot cs
        (c :: a, b)

/-- `pd.to_numeric(cell, errors="coerce")` restricted to plain signed
decimal literals: optional sign, digits, at most one point, surrounding
whitespace stripped; anything else coerces to NaN (`none`), which the
`dropna()` that follows removes.  (Exponent notation and the literals
`inf`/`nan` are outside this model; the claims do not exercise them.) -/
def parseNumeric (s : List Char) : Option ℚ :=
  let cs := trimChars s
  let signBody : Bool × List Char :=
    match cs with
    | '-' :: rest => (true, rest)
    | '+' :: rest => (false, rest)
    | rest => (false, rest)
  let neg := signBody.1
  let (ip, fpOpt) := splitDot signBody.2
  match fpOpt with
  | none =>
      if ip ≠ [] ∧ ip.all Char.isDigit then
        some (if neg then -(digitsNat ip : ℚ) else (digitsNat ip : ℚ))
      else none
  | some fp =>
      if (ip ≠ [] ∨ fp ≠ []) ∧ ip.all Char.isDigit ∧ fp.all Char.isDigit then
        let v : ℚ := (digitsNat ip : ℚ) + (digitsNat fp : ℚ) / (10 : ℚ) ^ fp.length
        some (if neg then -v else v)
      else none

/-- `_clean_numeric(col)` (loader.py lines 65-72): strip every thousands
comma and percent sign, coerce to numeric, drop the failures. -/
def cleanNumeric (col : List String) : List ℚ :=
  col.filterMap (fun c => parseNumeric (removeAll '%' (removeAll ',' c.toList)))

/-- Body of `loader.get_fund_series` once the sheet is in hand
(loader.py lines 61-91), exceptions included (`ok none` = Python `None`,
`ok (some _)` = a returned list, `error` = an uncaught exception).
`None`/empty sheet → not found.  Step 1: first exact match of the
normalized fund name among normalized headers → that whole column,
cleaned.  Step 2: first exact match among the normalized first-row values
at column position `j` → `df.loc[1:, idx]` with `idx` the *label* of
column `j`: pandas label-based selection yields the single column bearing
that label when the label is unique (for the unique label of column `j`
that is column `j` itself), but a two-column `DataFrame` when the label is
duplicated, on which `_clean_numeric`'s `.str` accessor then raises
`AttributeError: 'DataFrame' object has no attribute 'str'`; a label
absent from the columns (impossible for a rectangular sheet) would raise
`KeyError`.  Step 3: not found. -/
def getFundSeriesTable (df : Table) (fund_name : String) :
    Except String (Option (List ℚ)) :=
  if df.isEmpty then .ok none
  else
    let fund_lower := normKey fund_name
    let cols_lower := df.headers.map normKey
    match firstIdx fund_lower cols_lower with
    | some j => .ok (some (cleanNumeric (df.col j)))
    | none =>
        let first_row := (df.rows.headD []).map normKey
        match firstIdx fund_lower first_row with
        | some j =>
            let lbl := df.headers.getD j ""
            if 2 ≤ df.headers.count lbl then
              .error "AttributeError: 'DataFrame' object has no attribute 'str'"
            else
              match firstIdx lbl df.headers with
              | some j2 =>
                  .ok (some (cleanNumeric (df.rows.tail.map (fun r => r.getD j2 ""))))
              | none => .error "KeyError"
        | none => .ok none

/-- `loader.get_fund_series(excel_data, sheet, fund_name)` including the
`excel_data.get(sheet)` dictionary lookup. -/
def get_fund_series (excel_data : List (String × Table)) (sheet : String)
    (fund_name : String) : Except String (Option (List ℚ)) :=
  match excel_data.lookup sheet with
  | none => .ok none
  | some df => getFundSeriesTable df fund_name

/-- Modelled from the spec: `locate_series(table, fund_name)` as §4.2 of
the spec words it — Step 1: exact match of the trimmed-lowercased fund
name among trimmed-lowercased headers returns that column's values,
numerically coerced; Step 2: otherwise an exact match among the
trimmed-lowercased first-row values returns the values below that row in
the same column, numerically coerced; Step 3: otherwise not found. -/
def locateSeriesSpec (df : Table) (fund_name : String) : Option (List ℚ) :=
  let key := normKey fund_name
  match firstIdx key (df.headers.map normKey) with
  | some j => some (cleanNumeric (df.col j))
  | none =>
      match df.rows with
      | [] => none
      | r0 :: rest =>
          match firstIdx key (r0.map normKey) with
          | some j => some (cleanNumeric (rest.map (fun r => r.getD j "")))
          | none => none

-- --------------------------------------------------------------------- --
-- appp.py : the tool dispatcher loop (Executing phase)                  --
-- --------------------------------------------------------------------- --

/-- What one handler invocation does when actually run: return a textual
tool result, or raise.  The dispatcher's control flow is modelled over
this outcome, which stands for the behaviour of the handler body (the
Python code between an `elif name == ...:` and the shared
`tool_messages.append`). -/
inductive HandlerOutcome where
  | ok : String → HandlerOutcome
  | exc : String → HandlerOutcome
deriving DecidableEq

/-- One tool call of a batch (`choice.message.tool_calls` entry): the tool
name, the call id, and what its handler does on this invocation. -/
structure ToolCall where
  name : String
  callId : String
  outcome : HandlerOutcome
deriving DecidableEq

/-- The tool names the dispatcher's `if/elif` chain recognizes
(appp.py lines 384-760); anything else reaches the
`Unknown tool call` fallback. -/
def dispatchedTools : List String :=
  ["create_pie_chart", "calculate_portfolio_metrics",
   "calculate_portfolio_metrics_from_excel", "calculate_yearly_performance",
   "get_stock_quote", "get_fx_rate", "get_stock_history",
   "calculate_max_drawdown", "get_excel_data", "get_ranking_excel_data",
   "list_excel_sheets", "get_fund_series", "get_fund_month_value",
   "get_fund_rankings", "calculate_fund_metrics"]

/-- The handlers whose bodies wrap their fallible work in `try/except`
and convert an exception into an error `tool_content` (appp.py).  The
remaining handlers — `create_pie_chart`, `calculate_yearly_performance`,
`get_stock_quote`, `get_fx_rate`, `get_stock_history`, `get_excel_data`,
`get_ranking_excel_data`, `list_excel_sheets` — run bare. -/
def guardedTools : List String :=
  ["calculate_portfolio_metrics", "calculate_portfolio_metrics_from_excel",
   "calculate_max_drawdown", "get_fund_series", "get_fund_month_value",
   "get_fund_rankings", "calculate_fund_metrics"]

/-- One iteration of the dispatcher loop: an unknown name produces the
fallback text; a raising guarded handler produces an error
`tool_content`; a raising unguarded handler propagates the exception out
of the loop (`Except.error`). -/
def execCall (c : ToolCall) : Except String (String × String) :=
  if dispatchedTools.contains c.name then
    match c.outcome with
    | .ok content => .ok (c.callId, content)
    | .exc m =>
        if guardedTools.contains c.name then
          .ok (c.callId, "Error: " ++ m)
        else .error m
  else .ok (c.callId, "Unknown tool call: " ++ c.name)

/-- The Executing phase over a whole batch, in order
(appp.py lines 379-771): each executed call appends exactly one
`{role: tool, tool_call_id, content}` message; an uncaught exception
aborts the loop, discarding the partial `tool_messages` list (the whole
script run raises), so the second (synthesis) LLM call at line 791 is
never reached. -/
def execBatch : List ToolCall → Except String (List (String × String))
  | [] => .ok []
  | c :: cs =>
      match execCall c with
      | .error m => .error m
      | .ok msg =>
          match execBatch cs with
          | .error m => .error m
          | .ok msgs => .ok (msg :: msgs)

/-- Whether a batch reaches the Synthesizing phase (the `follow_resp =
ask_llm(...)` call directly after the loop). -/
def reachesSynthesis (batch : List ToolCall) : Bool :=
  (execBatch batch).isOk

-- --------------------------------------------------------------------- --
-- features/llm/chat.py : ask_llm, and the synthesis call of appp.py     --
-- --------------------------------------------------------------------- --

/-- The parameter names of `chat.ask_llm(messages, vectorstore=None,
user_input="", *, top_k=6)` — the signature is identical in
`features/llm/chat.py` (line 114, the one `appp.py` imports) and in
`revised_scripts_with_error_handling/llm/chat.py` (line 62).  There is no
`enable_tools` parameter. -/
def askLlmParamNames : List String :=
  ["messages", "vectorstore", "user_input", "top_k"]

/-- Of those, the ones allowed positionally (before the `*`). -/
def askLlmPositionalCount : ℕ := 3

/-- A Python call site reduced to what argument binding checks: how many
positional arguments, and which keyword names. -/
structure PyKwCall where
  positionalCount : ℕ
  keywordNames : List String

/-- CPython argument binding, reduced to the two checks that matter here:
every keyword must name a parameter, and the positional arguments must
fit before the `*`.  A `false` is a `TypeError` at call time. -/
def bindsWithoutTypeError (params : List String) (posAllowed : ℕ)
    (c : PyKwCall) : Bool :=
  decide (c.positionalCount ≤ posAllowed) &&
    c.keywordNames.all (fun k => params.contains k)

/-- The synthesis call site, appp.py lines 791-797:
`ask_llm(st.session_state.messages + [assistant_call_msg] + tool_messages,
None, "", top_k=0, enable_tools=False)` — three positional arguments and
the keywords `top_k` and `enable_tools`. -/
def synthesisAskLlmCall : PyKwCall := ⟨3, ["top_k", "enable_tools"]⟩

/-- The tool list `chat.py` sends: `TOOLS = _BASE_TOOLS + [excel schema,
fund-series schema]` (chat.py lines 67-70), by function name. -/
def chatToolNames : List String :=
  ["create_pie_chart", "calculate_portfolio_metrics",
   "calculate_yearly_performance", "get_stock_quote", "get_stock_history",
   "get_fx_rate", "calculate_max_drawdown", "get_excel_data",
   "get_fund_series", "calculate_fund_metrics",
   "calculate_portfolio_metrics_from_excel", "get_excel_data",
   "get_fund_series"]

/-- The request `ask_llm` would build, reduced to the fields that decide
tool availability.  `chat.ask_llm` always passes `tools=TOOLS,
tool_choice="auto"` (chat.py lines 146-151): no argument of the function
can disable tool calling. -/
structure ChatRequest where
  toolNames : List String
  toolChoice : String

/-- The request construction of `ask_llm`: the tool fields do not depend
on any argument. -/
def askLlmRequest (_messages : List String) (_userInput : String)
    (_topK : ℕ) : ChatRequest :=
  ⟨chatToolNames, "auto"⟩

-- --------------------------------------------------------------------- --
-- Statement vocabulary                                                  --
-- --------------------------------------------------------------------- --

/-- An arithmetic progression of `m` timestamps starting at `a`, spaced
`δ` days apart — the shape of an evenly sampled date column. -/
def apFrom (a δ : ℚ) : ℕ → List ℚ
  | 0 => []
  | m + 1 => a :: apFrom (a + δ) δ m

-- --------------------------------------------------------------------- --
-- Helper lemmas                                                         --
-- --------------------------------------------------------------------- --

theorem Qf.sub_fin_fin (a b : ℚ) : Qf.sub (.fin a) (.fin b) = .fin (a - b) := by
  simp [Qf.sub, Qf.add, Qf.neg, sub_eq_add_neg]

theorem Qf.div_fin_fin (a b : ℚ) (hb : b ≠ 0) :
    Qf.div (.fin a) (.fin b) = .fin (a / b) := by
  simp [Qf.div, hb]

theorem Qf.max2_fin_fin (a b : ℚ) : Qf.max2 (.fin a) (.fin b) = .fin (max a b) := rfl

theorem Qf.min2_fin_fin (a b : ℚ) : Qf.min2 (.fin a) (.fin b) = .fin (min a b) := rfl

theorem Qf.add_fin_fin (a b : ℚ) : Qf.add (.fin a) (.fin b) = .fin (a + b) := rfl

theorem runningMaxAux_length (acc : Qf) (l : List Qf) :
    (runningMaxAux acc l).length = l.length := by
  induction l generalizing acc with
  | nil => rfl
  | cons x xs ih => simp [runningMaxAux, ih]

theorem runningMax_length (l : List Qf) : (runningMax l).length = l.length := by
  cases l with
  | nil => rfl
  | cons x xs => simp [runningMax, runningMaxAux_length]

theorem cumprodAux_length (acc : Qf) (l : List Qf) :
    (cumprodAux acc l).length = l.length := by
  induction l generalizing acc with
  | nil => rfl
  | cons x xs ih => simp [cumprodAux, ih]

theorem cumprod1p_length (l : List Qf) : (cumprod1p l).length = l.length := by
  simp [cumprod1p, cumprodAux_length]

theorem minReduce_ne_nil (l : List Qf) (h : l ≠ []) : ∃ m, minReduce l = some m := by
  cases l with
  | nil => exact absurd rfl h
  | cons x xs => exact ⟨xs.foldl Qf.min2 x, rfl⟩

/-- On a non-empty series, `max_drawdown` succeeds (the `.min()` reduction
has at least one element). -/
theorem max_drawdown_ok_of_ne_nil (l : List Qf) (b : Bool) (h : l ≠ []) :
    ∃ m, max_drawdown (some l) b = .ok m := by
  have hlen : (List.zipWith (fun p pk => Qf.div (Qf.sub p pk) pk)
      (if b = true then l else cumprod1p l)
      (runningMax (if b = true then l else cumprod1p l))).length = l.length := by
    rw [List.length_zipWith, runningMax_length, min_self]
    cases b <;> simp [cumprod1p_length]
  have hne : List.zipWith (fun p pk => Qf.div (Qf.sub p pk) pk)
      (if b = true then l else cumprod1p l)
      (runningMax (if b = true then l else cumprod1p l)) ≠ [] := by
    intro hnil
    rw [hnil] at hlen
    exact h (List.length_eq_zero.mp hlen.symm)
  obtain ⟨m, hm⟩ := minReduce_ne_nil _ hne
  exact ⟨m, by simp only [max_drawdown, hm]⟩

theorem drawdown_fin_nonpos (rest : List ℚ) (acc : ℚ) (hacc : 0 < acc)
    (hpos : ∀ q ∈ rest, 0 < q) :
    ∃ qs : List ℚ,
      List.zipWith (fun p pk => Qf.div (Qf.sub p pk) pk)
          (rest.map Qf.fin) (runningMaxAux (Qf.fin acc) (rest.map Qf.fin))
        = qs.map Qf.fin ∧ ∀ q ∈ qs, q ≤ 0 := by
  induction rest generalizing acc with
  | nil => exact ⟨[], rfl, by simp⟩
  | cons r rs ih =>
      have hr : 0 < r := hpos r (List.mem_cons_self r rs)
      have hmax : 0 < max acc r := lt_max_of_lt_left hacc
      obtain ⟨qs, hqs, hle⟩ :=
        ih (max acc r) hmax (fun q hq => hpos q (List.mem_cons_of_mem r hq))
      refine ⟨(r - max acc r) / max acc r :: qs, ?_, ?_⟩
      · simp only [List.map_cons, runningMaxAux, Qf.max2_fin_fin, List.zipWith_cons_cons,
          Qf.sub_fin_fin, Qf.div_fin_fin _ _ (ne_of_gt hmax), hqs]
      · intro q hq
        rcases List.mem_cons.mp hq with hq | hq
        · subst hq
          exact div_nonpos_iff.mpr (Or.inr ⟨by simp [le_max_right], le_of_lt hmax⟩)
        · exact hle q hq

theorem drawdown_zero_of_chain (rest : List ℚ) (acc : ℚ) (hacc : 0 < acc)
    (hpos : ∀ q ∈ rest, 0 < q) (hch : List.Chain (· ≤ ·) acc rest) :
    List.zipWith (fun p pk => Qf.div (Qf.sub p pk) pk)
        (rest.map Qf.fin) (runningMaxAux (Qf.fin acc) (rest.map Qf.fin))
      = List.replicate rest.length (Qf.fin 0) := by
  induction rest generalizing acc with
  | nil => rfl
  | cons r rs ih =>
      rcases List.chain_cons.mp hch with ⟨hle, hch'⟩
      have hr : 0 < r := hpos r (List.mem_cons_self r rs)
      have hmax : Qf.max2 (Qf.fin acc) (Qf.fin r) = Qf.fin r := by
        rw [Qf.max2_fin_fin, max_eq_right hle]
      simp only [List.map_cons, runningMaxAux, hmax, List.zipWith_cons_cons,
        Qf.sub_fin_fin, sub_self, Qf.div_fin_fin _ _ (ne_of_gt hr), zero_div,
        List.length_cons, List.replicate_succ,
        ih r hr (fun q hq => hpos q (List.mem_cons_of_mem r hq)) hch']

theorem foldl_min2_map_fin (qs : List ℚ) (a : ℚ) :
    List.foldl Qf.min2 (Qf.fin a) (qs.map Qf.fin) = Qf.fin (qs.foldl min a) := by
  induction qs generalizing a with
  | nil => rfl
  | cons q rest ih => simp [List.foldl, Qf.min2_fin_fin, ih]

theorem foldl_min_le_init (qs : List ℚ) (a : ℚ) : qs.foldl min a ≤ a := by
  induction qs generalizing a with
  | nil => simp
  | cons q rest ih => exact le_trans (ih (min a q)) (min_le_left a q)

theorem foldl_min_replicate_zero (n : ℕ) :
    List.foldl min (0 : ℚ) (List.replicate n 0) = 0 := by
  induction n with
  | zero => rfl
  | succ k ih => simpa [List.replicate_succ, List.foldl] using ih

theorem max_drawdown_cons (p0 : Qf) (rest : List Qf) :
    max_drawdown (some (p0 :: rest)) true
      = .ok (List.foldl Qf.min2 (Qf.div (Qf.sub p0 p0) p0)
          (List.zipWith (fun p pk => Qf.div (Qf.sub p pk) pk) rest
            (runningMaxAux p0 rest))) := rfl

theorem pct_change_length (s : List Qf) : (pct_change s).length = s.length := by
  simp only [pct_change, List.length_zipWith, List.length_cons]
  omega

theorem rawReturns_length (s : List Qf) (ip rp : Bool) :
    (rawReturns s ip rp).length = s.length := by
  unfold rawReturns
  cases ip <;> cases rp <;> simp [pct_change_length]

theorem length_filter_not_nan_add (l : List Qf) :
    (l.filter (fun x => !x.isNan)).length + l.countP (fun x => x.isNan) = l.length := by
  induction l with
  | nil => rfl
  | cons x xs ih =>
      cases hx : x.isNan <;>
        simp [List.filter_cons, List.countP_cons, hx] <;> omega

theorem Qf.div_nan_right (x : Qf) : Qf.div x Qf.nan = Qf.nan := by
  cases x <;> rfl

theorem Qf.sub_nan_left (y : Qf) : Qf.sub Qf.nan y = Qf.nan := by
  cases y <;> rfl

theorem Qf.div_nan_left (y : Qf) : Qf.div Qf.nan y = Qf.nan := by
  cases y <;> rfl

theorem rawReturns_cons_prices (x : Qf) (xs : List Qf) (rp : Bool) :
    ∃ t : List Qf, rawReturns (x :: xs) true rp = Qf.nan :: t := by
  unfold rawReturns pct_change
  cases rp <;>
    simp [List.zipWith_cons_cons, Qf.div_nan_right, Qf.sub_nan_left, Qf.div_nan_left]

theorem ensure_returns_no_nan (s : List Qf) (ip rp : Bool) :
    ∀ y ∈ ensure_returns s ip rp, y.isNan = false := by
  intro y hy
  have := List.of_mem_filter hy
  simpa using this

theorem ensure_returns_nil (ip rp : Bool) : ensure_returns [] ip rp = [] := by
  unfold ensure_returns rawReturns pct_change
  cases ip <;> cases rp <;> rfl

theorem ensure_returns_length_le (s : List Qf) (ip rp : Bool) :
    (ensure_returns s ip rp).length ≤ s.length := by
  calc (ensure_returns s ip rp).length
      ≤ (rawReturns s ip rp).length := List.length_filter_le _ _
    _ = s.length := rawReturns_length s ip rp

theorem ensure_returns_length_prices (s : List Qf) (rp : Bool) (h : s ≠ []) :
    (ensure_returns s true rp).length ≤ s.length - 1 := by
  cases s with
  | nil => exact absurd rfl h
  | cons x xs =>
      obtain ⟨t, ht⟩ := rawReturns_cons_prices x xs rp
      have hlen : t.length = xs.length := by
        have := rawReturns_length (x :: xs) true rp
        rw [ht] at this
        simpa using this
      unfold ensure_returns
      rw [ht]
      simpa [List.filter_cons, Qf.isNan, hlen] using List.length_filter_le _ t

/-- If normalization of a price series yields any usable return, the
series itself must be non-empty. -/
theorem source_ne_nil_of_ensure_ne_nil (s : List Qf) (ip rp : Bool)
    (h : ensure_returns s ip rp ≠ []) : s ≠ [] := by
  intro h0
  exact h (by rw [h0, ensure_returns_nil])

/-- `metricsCore` on a non-empty returns series: the four metrics around
the drawdown result. -/
theorem metricsCore_ne_nil (s : List Qf) (ip : Bool) (rs : List Qf) (ppy : ℕ)
    (h : rs ≠ []) :
    metricsCore s ip rs ppy =
      (max_drawdown (some (if ip then s else rs)) ip).map
        (fun m => ⟨(cumulativeOf rs).toRf,
          Rf.sub (npPow (Rf.add (Rf.fin 1)
            (Rf.sub (npPow (Rf.add (Rf.fin 1) (cumulativeOf rs).toRf)
              (1 / (rs.length : ℚ))) (Rf.fin 1))) ((ppy : ℚ))) (Rf.fin 1),
          Rf.mul (sqrtQf (variancePop rs)) (Rf.fin (Real.sqrt (ppy : ℝ))),
          m.toRf⟩) := by
  cases rs with
  | nil => exact absurd rfl h
  | cons x xs => rfl

theorem npPow_nan (e : ℚ) (he : e ≠ 0) : npPow Rf.nan e = Rf.nan := by
  simp [npPow, he]

theorem npPow_fin_neg_notint (x : ℝ) (e : ℚ) (hx : x < 0) (he : e ≠ 0)
    (hint : qIsInt e = false) : npPow (Rf.fin x) e = Rf.nan := by
  simp [npPow, he, hint, hx.ne, asymm hx]

theorem Rf.nan_sub (y : Rf) : Rf.sub Rf.nan y = Rf.nan := by
  cases y <;> rfl

theorem Rf.add_fin_nan : Rf.add (Rf.fin 1) Rf.nan = Rf.nan := rfl

theorem qIsInt_one_div_nat (n : ℕ) (h : 2 ≤ n) : qIsInt (1 / (n : ℚ)) = false := by
  have hden : (1 / (n : ℚ)).den = n := by
    rw [one_div]
    exact Rat.inv_natCast_den_of_pos (by omega)
  simp [qIsInt, hden]
  omega

theorem inferFromDates_cases (ds : List (Option ℚ)) (p : ℕ)
    (h : inferFromDates ds = some p) : p = 1 ∨ p = 12 ∨ p = 252 := by
  simp only [inferFromDates] at h
  split at h
  · exact absurd h (by simp)
  · split at h
    · exact absurd h (by simp)
    · split_ifs at h <;> simp_all

theorem lengthHeuristic_cases (n : ℕ) :
    lengthHeuristic n = 1 ∨ lengthHeuristic n = 12 ∨ lengthHeuristic n = 252 := by
  unfold lengthHeuristic
  split_ifs <;> simp

theorem choosePeriods_ne_zero (pp : Option ℕ) (ds : Option (List (Option ℚ)))
    (n : ℕ) (h : pp ≠ some 0) : choosePeriods pp ds n ≠ 0 := by
  cases pp with
  | some p =>
      have hp : p ≠ 0 := fun h0 => h (by rw [h0])
      simpa [choosePeriods] using hp
  | none =>
      cases ds with
      | none =>
          rcases lengthHeuristic_cases n with h1 | h1 | h1 <;> simp [choosePeriods, h1]
      | some d =>
          cases hi : inferFromDates d with
          | none =>
              rcases lengthHeuristic_cases n with h1 | h1 | h1 <;>
                simp [choosePeriods, hi, h1]
          | some p =>
              rcases inferFromDates_cases d p hi with h1 | h1 | h1 <;>
                simp [choosePeriods, hi, h1]

theorem zip_pct_fin (xs : List ℚ) (prev : ℚ) (hprev : prev ≠ 0)
    (hxs : ∀ q ∈ xs, q ≠ 0) :
    ∃ qs : List ℚ,
      List.zipWith (fun x p => Qf.sub (Qf.div x p) (Qf.fin 1))
          (xs.map Qf.fin) ((prev :: xs).map Qf.fin) = qs.map Qf.fin
        ∧ qs.length = xs.length := by
  induction xs generalizing prev with
  | nil => exact ⟨[], rfl, rfl⟩
  | cons x rest ih =>
      obtain ⟨qs, hqs, hlen⟩ :=
        ih x (hxs x (List.mem_cons_self x rest))
          (fun q hq => hxs q (List.mem_cons_of_mem x hq))
      refine ⟨(x / prev - 1) :: qs, ?_, by simp [hlen]⟩
      simp only [List.map_cons] at hqs
      simp only [List.map_cons, List.zipWith_cons_cons,
        Qf.div_fin_fin _ _ hprev, Qf.sub_fin_fin, hqs]

theorem map_div100_fin (qs : List ℚ) :
    (qs.map Qf.fin).map (fun x => Qf.div x (Qf.fin 100))
      = (qs.map (fun q => q / 100)).map Qf.fin := by
  induction qs with
  | nil => rfl
  | cons q rest ih =>
      simp only [List.map_cons, Qf.div_fin_fin _ _ (by norm_num : (100 : ℚ) ≠ 0), ih]

theorem filter_not_nan_map_fin (qs : List ℚ) :
    (qs.map Qf.fin).filter (fun x => !x.isNan) = qs.map Qf.fin :=
  List.filter_eq_self.mpr (by
    intro a ha
    obtain ⟨q, _, rfl⟩ := List.mem_map.mp ha
    rfl)

/-- On an all-finite, all-nonzero price list, normalization drops exactly
the leading undefined return: the result is an all-finite return list one
shorter than the input. -/
theorem ensure_returns_map_fin_prices (p0 : ℚ) (rest : List ℚ) (rp : Bool)
    (h : ∀ q ∈ p0 :: rest, q ≠ 0) :
    ∃ qs : List ℚ,
      ensure_returns ((p0 :: rest).map Qf.fin) true rp = qs.map Qf.fin
        ∧ qs.length = rest.length := by
  obtain ⟨qs, hqs, hlen⟩ :=
    zip_pct_fin rest p0 (h p0 (List.mem_cons_self p0 rest))
      (fun q hq => h q (List.mem_cons_of_mem p0 hq))
  have hpct : pct_change ((p0 :: rest).map Qf.fin) = Qf.nan :: qs.map Qf.fin := by
    unfold pct_change
    simp only [List.map_cons] at hqs
    simp only [List.map_cons, List.zipWith_cons_cons, Qf.div_nan_right,
      Qf.sub_nan_left, hqs]
  have hdrop : ∀ l : List Qf,
      List.filter (fun x => !x.isNan) (Qf.nan :: l)
        = List.filter (fun x => !x.isNan) l := by
    intro l
    simp [List.filter_cons, Qf.isNan]
  unfold ensure_returns rawReturns
  cases rp with
  | false =>
      refine ⟨qs, ?_, hlen⟩
      show List.filter (fun x => !x.isNan)
          (pct_change (List.map Qf.fin (p0 :: rest))) = qs.map Qf.fin
      rw [hpct, hdrop, filter_not_nan_map_fin]
  | true =>
      refine ⟨qs.map (fun q => q / 100), ?_, by simp [hlen]⟩
      show List.filter (fun x => !x.isNan)
          ((pct_change (List.map Qf.fin (p0 :: rest))).map
            (fun x => Qf.div x (Qf.fin 100)))
        = (qs.map (fun q => q / 100)).map Qf.fin
      rw [hpct, List.map_cons, Qf.div_nan_left, hdrop, map_div100_fin,
        filter_not_nan_map_fin]

theorem sortQ_of_chain (l : List ℚ) (h : List.Chain' (· ≤ ·) l) : sortQ l = l := by
  induction l with
  | nil => rfl
  | cons x xs ih =>
      rw [sortQ, ih h.tail]
      cases xs with
      | nil => rfl
      | cons y ys =>
          have hxy : x ≤ y := (List.chain'_cons.mp h).1
          simp [insertSorted, hxy]

theorem chain'_le_replicate (n : ℕ) (δ : ℚ) :
    List.Chain' (· ≤ ·) (List.replicate n δ) := by
  induction n with
  | zero => simp
  | succ k ih =>
      cases k with
      | zero => simp
      | succ m =>
          rw [List.replicate_succ, List.replicate_succ, List.chain'_cons]
          exact ⟨le_refl δ, by rw [← List.replicate_succ]; exact ih⟩

theorem getD_replicate (n i : ℕ) (δ : ℚ) (hi : i < n) :
    (List.replicate n δ).getD i 0 = δ := by
  induction n generalizing i with
  | zero => omega
  | succ k ih =>
      cases i with
      | zero => rfl
      | succ j => simpa [List.replicate_succ] using ih j (by omega)

theorem medianQ_replicate (n : ℕ) (δ : ℚ) :
    medianQ (List.replicate (n + 1) δ) = some δ := by
  unfold medianQ
  rw [if_neg (by simp)]
  rw [sortQ_of_chain _ (chain'_le_replicate _ _)]
  simp only [List.length_replicate]
  split_ifs with hpar
  · rw [getD_replicate _ _ _ (by omega)]
  · rw [getD_replicate _ _ _ (by omega), getD_replicate _ _ _ (by omega)]
    ring_nf

theorem apFrom_length (a δ : ℚ) (m : ℕ) : (apFrom a δ m).length = m := by
  induction m generalizing a with
  | zero => rfl
  | succ k ih => simp [apFrom, ih]

theorem apFrom_chain (x a δ : ℚ) (hδ : 0 ≤ δ) (hxa : x ≤ a) (m : ℕ) :
    List.Chain (· ≤ ·) x (apFrom a δ m) := by
  induction m generalizing x a with
  | zero => exact List.Chain.nil
  | succ k ih => exact List.Chain.cons hxa (ih a (a + δ) (by linarith))

theorem apFrom_chain' (a δ : ℚ) (hδ : 0 ≤ δ) (m : ℕ) :
    List.Chain' (· ≤ ·) (apFrom a δ m) := by
  cases m with
  | zero => simp [apFrom]
  | succ k =>
      rw [apFrom]
      show List.Chain (· ≤ ·) a (apFrom (a + δ) δ k)
      exact apFrom_chain a (a + δ) δ hδ (by linarith) k

theorem diffsQ_apFrom (a δ : ℚ) (m : ℕ) :
    diffsQ (apFrom a δ (m + 2)) = List.replicate (m + 1) δ := by
  induction m generalizing a with
  | zero =>
      show diffsQ [a, a + δ] = [δ]
      simp [diffsQ]
  | succ k ih =>
      show diffsQ (a :: apFrom (a + δ) δ (k + 2)) = List.replicate (k + 2) δ
      rw [show apFrom (a + δ) δ (k + 2) = (a + δ) :: apFrom (a + δ + δ) δ (k + 1) from rfl]
      rw [diffsQ]
      rw [show (a + δ) :: apFrom (a + δ + δ) δ (k + 1) = apFrom (a + δ) δ (k + 2) from rfl]
      rw [ih (a + δ)]
      simp [List.replicate_succ]

theorem filterMap_id_map_some (l : List ℚ) :
    List.filterMap id (l.map some) = l := by
  induction l with
  | nil => rfl
  | cons x xs ih => simp [List.filterMap_cons, ih]

/-- Date-based inference on an evenly spaced date column of at least two
dates: the bucket of the common spacing `δ` decides the result. -/
theorem inferFromDates_ap (d0 δ : ℚ) (k : ℕ) (hδ : 0 < δ) :
    inferFromDates ((apFrom d0 δ (k + 2)).map some)
      = (if 350 ≤ δ ∧ δ ≤ 370 then some 1
         else if 27 ≤ δ ∧ δ ≤ 31 then some 12
         else if 1/2 ≤ δ ∧ δ ≤ 3/2 then some 252
         else none) := by
  unfold inferFromDates
  rw [filterMap_id_map_some]
  rw [if_neg (by rw [apFrom_length]; omega)]
  rw [sortQ_of_chain _ (apFrom_chain' d0 δ (le_of_lt hδ) (k + 2))]
  rw [diffsQ_apFrom, medianQ_replicate]

theorem firstIdx_lt_length {α : Type} [DecidableEq α] (key : α) (l : List α)
    (j : ℕ) (h : firstIdx key l = some j) : j < l.length := by
  induction l generalizing j with
  | nil => simp [firstIdx] at h
  | cons x xs ih =>
      rw [firstIdx] at h
      split_ifs at h with hx
      · simp only [Option.some.injEq] at h
        subst h
        simp
      · cases hj : firstIdx key xs with
        | none => rw [hj] at h; simp at h
        | some i =>
            rw [hj] at h
            simp at h
            have := ih i hj
            simp [← h]
            omega

theorem firstIdx_get_self {α : Type} [DecidableEq α] (l : List α) (j : ℕ)
    (hj : j < l.length) (hnd : l.Nodup) :
    firstIdx (l.get ⟨j, hj⟩) l = some j := by
  induction l generalizing j with
  | nil => simp at hj
  | cons x xs ih =>
      cases j with
      | zero => simp [firstIdx]
      | succ i =>
          have hilt : i < xs.length := by simpa using hj
          have hkey : (x :: xs).get ⟨i + 1, hj⟩ = xs.get ⟨i, hilt⟩ := rfl
          have hne : ¬ x = xs.get ⟨i, hilt⟩ := by
            intro he
            exact (List.nodup_cons.mp hnd).1
              (by rw [he]; exact List.get_mem xs i hilt)
          rw [hkey, firstIdx, if_neg hne, ih i hilt (List.nodup_cons.mp hnd).2]
          rfl

-- --------------------------------------------------------------------- --
-- Claims                                                                --
-- --------------------------------------------------------------------- --

/-- C1: the claim says every handler invocation in a batch is isolated —
an exception in one call must not abort the remaining calls, and the batch
must still reach synthesis.  The code violates this: the
`get_stock_quote`, `get_fx_rate`, `calculate_yearly_performance` (and
other) handlers have no `try/except`, so an exception there propagates out
of the dispatch loop: in a three-call batch whose first handler raises, no
tool result is produced at all and the synthesis step is never reached.
Handlers that are guarded (e.g. `calculate_portfolio_metrics`) do show the
claimed behaviour. -/
theorem claim_C1 :
    execBatch [⟨"get_stock_quote", "call_1", .exc "HTTPError 502"⟩,
        ⟨"get_fx_rate", "call_2", .ok "fx rendered"⟩,
        ⟨"calculate_yearly_performance", "call_3", .ok "table rendered"⟩]
      = .error "HTTPError 502"
    ∧ reachesSynthesis [⟨"get_stock_quote", "call_1", .exc "HTTPError 502"⟩,
        ⟨"get_fx_rate", "call_2", .ok "fx rendered"⟩,
        ⟨"calculate_yearly_performance", "call_3", .ok "table rendered"⟩] = false
    ∧ execBatch [⟨"calculate_portfolio_metrics", "call_1", .exc "boom"⟩,
        ⟨"get_fx_rate", "call_2", .ok "fx rendered"⟩,
        ⟨"calculate_yearly_performance", "call_3", .ok "table rendered"⟩]
      = .ok [("call_1", "Error: boom"), ("call_2", "fx rendered"),
             ("call_3", "table rendered")]
    ∧ reachesSynthesis [⟨"calculate_portfolio_metrics", "call_1", .exc "boom"⟩,
        ⟨"get_fx_rate", "call_2", .ok "fx rendered"⟩,
        ⟨"calculate_yearly_performance", "call_3", .ok "table rendered"⟩] = true :=
  ⟨rfl, rfl, rfl, rfl⟩

/-- C2: the claim says `max_drawdown` returns NaN (and never raises) on
both a `None` and an empty input.  The code does return NaN for `None`,
but on the empty series the drawdown array is empty and numpy's `.min()`
raises `ValueError` — for both values of `is_prices`. -/
theorem claim_C2 :
    max_drawdown none true = .ok Qf.nan
    ∧ max_drawdown (some []) true
      = .error "zero-size array to reduction operation minimum which has no identity"
    ∧ max_drawdown (some []) false
      = .error "zero-size array to reduction operation minimum which has no identity" :=
  ⟨rfl, rfl, rfl⟩

/-- C4: the claim says the second (synthesis) LLM call is issued with
tool-calling disabled.  In the code, the call site passes
`enable_tools=False`, but `ask_llm` has no such parameter, so the call
raises `TypeError` (first conjunct: the keyword binding fails); moreover
the request `ask_llm` builds always carries the full non-empty tool list
with `tool_choice="auto"` regardless of its arguments, so no argument
could have disabled tool-calling (remaining conjuncts). -/
theorem claim_C4 :
    bindsWithoutTypeError askLlmParamNames askLlmPositionalCount
        synthesisAskLlmCall = false
    ∧ synthesisAskLlmCall.keywordNames.contains "enable_tools" = true
    ∧ askLlmParamNames.contains "enable_tools" = false
    ∧ ∀ (ms : List String) (ui : String) (tk : ℕ),
        (askLlmRequest ms ui tk).toolNames = chatToolNames
        ∧ (askLlmRequest ms ui tk).toolChoice = "auto"
        ∧ chatToolNames ≠ [] :=
  ⟨rfl, rfl, rfl, fun _ _ _ => ⟨rfl, rfl, by simp [chatToolNames]⟩⟩

/-- C3: whenever normalization leaves zero usable returns,
`compute_portfolio_metrics` returns the Metrics Result with all four
metrics set to NaN, and does not raise. -/
theorem claim_C3 (s : List Qf) (ip : Bool) (pp : Option ℕ) (rp : Bool)
    (ds : Option (List (Option ℚ)))
    (h : ensure_returns s ip rp = []) :
    compute_portfolio_metrics s ip pp rp ds
      = .ok ⟨Rf.nan, Rf.nan, Rf.nan, Rf.nan⟩ := by
  simp [compute_portfolio_metrics, metricsCore, h]

/-- Witness for C3: the single-observation price series `[100]` and the
empty series, both with zero usable returns. -/
theorem claim_C3_witness :
    ensure_returns [Qf.fin 100] true false = []
    ∧ compute_portfolio_metrics [Qf.fin 100] true none false none
      = .ok ⟨Rf.nan, Rf.nan, Rf.nan, Rf.nan⟩
    ∧ ensure_returns ([] : List Qf) false false = []
    ∧ compute_portfolio_metrics [] false none false none
      = .ok ⟨Rf.nan, Rf.nan, Rf.nan, Rf.nan⟩ := by
  have h1 : ensure_returns [Qf.fin 100] true false = [] := rfl
  have h2 : ensure_returns ([] : List Qf) false false = [] := rfl
  exact ⟨h1, claim_C3 _ _ _ _ _ h1, h2, claim_C3 _ _ _ _ _ h2⟩

/-- C6: the three-tier `periods_per_year` selection — an explicit value is
used as-is; with usable dates the median spacing of consecutive sorted
dates selects 1 for roughly yearly spacing (the code's bucket
[350, 370] days, containing ~365), 12 for roughly monthly spacing
(bucket [27, 31], containing 28-31), 252 for roughly daily spacing
(bucket [1/2, 3/2], containing 1); with no dates the length heuristic
selects 1 for at most 12 usable returns, 12 for at most 60, 252 above. -/
theorem claim_C6 :
    (∀ (p : ℕ) (ds : Option (List (Option ℚ))) (n : ℕ),
        choosePeriods (some p) ds n = p)
    ∧ (∀ (d0 δ : ℚ) (k n : ℕ),
        (350 ≤ δ ∧ δ ≤ 370 →
          choosePeriods none (some ((apFrom d0 δ (k + 2)).map some)) n = 1)
        ∧ (27 ≤ δ ∧ δ ≤ 31 →
          choosePeriods none (some ((apFrom d0 δ (k + 2)).map some)) n = 12)
        ∧ (1/2 ≤ δ ∧ δ ≤ 3/2 →
          choosePeriods none (some ((apFrom d0 δ (k + 2)).map some)) n = 252))
    ∧ (∀ n : ℕ, (n ≤ 12 → choosePeriods none none n = 1)
        ∧ (12 < n → n ≤ 60 → choosePeriods none none n = 12)
        ∧ (60 < n → choosePeriods none none n = 252)) := by
  refine ⟨fun p ds n => rfl, fun d0 δ k n => ⟨fun hb => ?_, fun hb => ?_, fun hb => ?_⟩,
    fun n => ⟨fun h => ?_, fun ha hb => ?_, fun h => ?_⟩⟩
  · have hrw := inferFromDates_ap d0 δ k (by linarith [hb.1])
    rw [if_pos hb] at hrw
    simp [choosePeriods, hrw]
  · have hrw := inferFromDates_ap d0 δ k (by linarith [hb.1])
    rw [if_neg (fun hc => by linarith [hb.2, hc.1]), if_pos hb] at hrw
    simp [choosePeriods, hrw]
  · have hrw := inferFromDates_ap d0 δ k (by linarith [hb.1])
    rw [if_neg (fun hc => by linarith [hb.2, hc.1]),
      if_neg (fun hc => by linarith [hb.2, hc.1]), if_pos hb] at hrw
    simp [choosePeriods, hrw]
  · show lengthHeuristic n = 1
    simp [lengthHeuristic, h]
  · show lengthHeuristic n = 12
    rw [lengthHeuristic, if_neg (by omega), if_pos hb]
  · show lengthHeuristic n = 252
    rw [lengthHeuristic, if_neg (by omega), if_neg (by omega)]

/-- Witness for C6: an explicit 7 is used as-is; two dates 30 days apart
infer 12; 100 usable returns with no dates fall back to 252. -/
theorem claim_C6_witness :
    choosePeriods (some 7) none 0 = 7
    ∧ choosePeriods none (some [some 0, some 30]) 5 = 12
    ∧ choosePeriods none none 100 = 252 := by
  refine ⟨claim_C6.1 7 none 0, ?_, (claim_C6.2.2 100).2.2 (by omega)⟩
  have h := (claim_C6.2.1 0 30 0 5).2.1 (by norm_num)
  have hlist : (apFrom 0 30 2).map some = [some 0, some 30] := by
    show [some (0 : ℚ), some (0 + 30)] = [some 0, some 30]
    norm_num
  rwa [hlist] at h

/-- C7 (amended): normalization preserves length before the drop
(`pct_change` keeps the length, with an undefined first entry), the final
length is the raw length minus exactly the number of NaN entries — only
NaN values are dropped (an infinite return from dividing a nonzero price
by a zero prior price is kept) — so a price input of length N yields at
most N − 1 returns, and an empty input yields an empty series without
raising. -/
theorem claim_C7 (s : List Qf) (ip rp : Bool) :
    (rawReturns s ip rp).length = s.length
    ∧ (ensure_returns s ip rp).length
        + (rawReturns s ip rp).countP (fun x => x.isNan) = s.length
    ∧ (∀ y ∈ ensure_returns s ip rp, y.isNan = false)
    ∧ (ip = true → s ≠ [] → (ensure_returns s ip rp).length ≤ s.length - 1)
    ∧ ensure_returns [] ip rp = [] := by
  refine ⟨rawReturns_length s ip rp, ?_, ensure_returns_no_nan s ip rp, ?_,
    ensure_returns_nil ip rp⟩
  · have h := length_filter_not_nan_add (rawReturns s ip rp)
    rw [rawReturns_length] at h
    exact h
  · intro hip hne
    subst hip
    exact ensure_returns_length_prices s rp hne

/-- Counterexample for C7 as stated: on the price series `[0, 1]` the
return over the zero prior price is `1/0 = inf`, and `dropna` keeps it —
the output is `[inf]`, so it is false that every undefined value arising
from division by a zero prior price is dropped. -/
theorem claim_C7_counterexample :
    ensure_returns [Qf.fin 0, Qf.fin 1] true false = [Qf.inf]
    ∧ (Qf.inf).isNan = false := by
  constructor
  · norm_num [ensure_returns, rawReturns, pct_change, Qf.div, Qf.sub, Qf.add,
      Qf.neg, Qf.isNan, List.zipWith, List.filter]
  · rfl

/-- Witness for C7: the two-point price series `[1, 2]`. -/
theorem claim_C7_witness :
    (ensure_returns [Qf.fin 1, Qf.fin 2] true false).length ≤ 2 - 1
    ∧ (rawReturns [Qf.fin 1, Qf.fin 2] true false).length = 2 := by
  have h := claim_C7 [Qf.fin 1, Qf.fin 2] true false
  exact ⟨h.2.2.2.1 rfl (by simp), h.1⟩

/-- C8 (amended): for a price series of length ≥ 2 with all positive
values, `max_drawdown` with `is_prices=True` is a finite value ≤ 0, and
equals exactly 0 when the series is additionally non-decreasing (which
covers every strictly increasing positive series; positivity is needed —
see the counterexample). -/
theorem claim_C8 (l : List ℚ) (h2 : 2 ≤ l.length) (hpos : ∀ q ∈ l, 0 < q) :
    (∃ m : ℚ, m ≤ 0 ∧ max_drawdown (some (l.map Qf.fin)) true = .ok (Qf.fin m))
    ∧ (List.Chain' (· ≤ ·) l →
        max_drawdown (some (l.map Qf.fin)) true = .ok (Qf.fin 0)) := by
  obtain ⟨p0, rest, rfl⟩ : ∃ p0 rest, l = p0 :: rest := by
    cases l with
    | nil => simp at h2
    | cons a b => exact ⟨a, b, rfl⟩
  have hp0 : 0 < p0 := hpos p0 (List.mem_cons_self _ _)
  have hrest : ∀ q ∈ rest, 0 < q := fun q hq => hpos q (List.mem_cons_of_mem _ hq)
  have hhead : Qf.div (Qf.sub (Qf.fin p0) (Qf.fin p0)) (Qf.fin p0) = Qf.fin 0 := by
    rw [Qf.sub_fin_fin, sub_self, Qf.div_fin_fin _ _ (ne_of_gt hp0), zero_div]
  constructor
  · obtain ⟨qs, hqs, hle⟩ := drawdown_fin_nonpos rest p0 hp0 hrest
    refine ⟨qs.foldl min 0, foldl_min_le_init qs 0, ?_⟩
    rw [List.map_cons, max_drawdown_cons, hhead, hqs, foldl_min2_map_fin]
  · intro hch
    have hchain : List.Chain (· ≤ ·) p0 rest := hch
    rw [List.map_cons, max_drawdown_cons, hhead,
      drawdown_zero_of_chain rest p0 hp0 hrest hchain,
      show List.replicate rest.length (Qf.fin 0)
          = (List.replicate rest.length (0 : ℚ)).map Qf.fin from
        List.map_replicate.symm,
      foldl_min2_map_fin, foldl_min_replicate_zero]

/-- Counterexample for C8 as stated: `[-1, 0, 1]` is strictly increasing,
but its drawdown curve contains a `0/0 = NaN` (at the zero peak), so the
result is NaN, not `0.0`. -/
theorem claim_C8_counterexample :
    List.Chain' (· < ·) [(-1 : ℚ), 0, 1]
    ∧ max_drawdown (some ([(-1 : ℚ), 0, 1].map Qf.fin)) true = .ok Qf.nan
    ∧ Qf.nan ≠ Qf.fin 0 := by
  refine ⟨?_, ?_, by simp⟩
  · norm_num [List.chain'_cons, List.chain'_singleton]
  · norm_num [max_drawdown, runningMax, runningMaxAux, minReduce, Qf.max2,
      Qf.min2, Qf.div, Qf.sub, Qf.add, Qf.neg, List.zipWith, List.foldl,
      List.map_cons]

/-- Witness for C8: the positive increasing price series `[1, 2, 3]`. -/
theorem claim_C8_witness :
    2 ≤ ([1, 2, 3] : List ℚ).length
    ∧ ((∃ m : ℚ, m ≤ 0 ∧
          max_drawdown (some (([1, 2, 3] : List ℚ).map Qf.fin)) true
            = .ok (Qf.fin m))
       ∧ (List.Chain' (· ≤ ·) ([1, 2, 3] : List ℚ) →
          max_drawdown (some (([1, 2, 3] : List ℚ).map Qf.fin)) true
            = .ok (Qf.fin 0))) := by
  refine ⟨by norm_num, claim_C8 [1, 2, 3] (by norm_num) ?_⟩
  intro q hq
  simp only [List.mem_cons, List.not_mem_nil, or_false] at hq
  rcases hq with rfl | rfl | rfl <;> norm_num

/-- C10: with no explicit `periods_per_year` and no dates, the length
heuristic counts the *normalized returns*, not the raw observations: a
13-observation (all-positive) price series normalizes to 12 returns,
which selects `periods_per_year = 1` (not 12), and the metrics computed
with no periods argument coincide with those computed with an explicit 1. -/
theorem claim_C10 (l : List ℚ) (rp : Bool) (hlen : l.length = 13)
    (hpos : ∀ q ∈ l, 0 < q) :
    (ensure_returns (l.map Qf.fin) true rp).length = 12
    ∧ choosePeriods none none (ensure_returns (l.map Qf.fin) true rp).length = 1
    ∧ compute_portfolio_metrics (l.map Qf.fin) true none rp none
      = compute_portfolio_metrics (l.map Qf.fin) true (some 1) rp none := by
  obtain ⟨p0, rest, rfl⟩ : ∃ p0 rest, l = p0 :: rest := by
    cases l with
    | nil => simp at hlen
    | cons a b => exact ⟨a, b, rfl⟩
  obtain ⟨qs, hqs, hqlen⟩ :=
    ensure_returns_map_fin_prices p0 rest rp (fun q hq => ne_of_gt (hpos q hq))
  have hrlen : rest.length = 12 := by
    simpa using hlen
  have h12 : (ensure_returns ((p0 :: rest).map Qf.fin) true rp).length = 12 := by
    rw [hqs]
    simpa [hqlen] using hrlen
  have hchoose : choosePeriods none none
      (ensure_returns ((p0 :: rest).map Qf.fin) true rp).length = 1 := by
    rw [h12]
    rfl
  refine ⟨h12, hchoose, ?_⟩
  show metricsCore ((p0 :: rest).map Qf.fin) true
      (ensure_returns ((p0 :: rest).map Qf.fin) true rp)
      (choosePeriods none none
        (ensure_returns ((p0 :: rest).map Qf.fin) true rp).length)
    = metricsCore ((p0 :: rest).map Qf.fin) true
      (ensure_returns ((p0 :: rest).map Qf.fin) true rp)
      (choosePeriods (some 1) none
        (ensure_returns ((p0 :: rest).map Qf.fin) true rp).length)
  rw [hchoose]
  rfl

/-- Witness for C10: the 13-point price series `[1, …, 13]`. -/
theorem claim_C10_witness :
    ([1, 2, 3, 4, 5, 6, 7, 8, 9, 10, 11, 12, 13] : List ℚ).length = 13
    ∧ (ensure_returns (([1, 2, 3, 4, 5, 6, 7, 8, 9, 10, 11, 12, 13] : List ℚ).map
        Qf.fin) true false).length = 12
    ∧ compute_portfolio_metrics
        (([1, 2, 3, 4, 5, 6, 7, 8, 9, 10, 11, 12, 13] : List ℚ).map Qf.fin)
        true none false none
      = compute_portfolio_metrics
        (([1, 2, 3, 4, 5, 6, 7, 8, 9, 10, 11, 12, 13] : List ℚ).map Qf.fin)
        true (some 1) false none := by
  have h := claim_C10 [1, 2, 3, 4, 5, 6, 7, 8, 9, 10, 11, 12, 13] false rfl (by
    intro q hq
    simp only [List.mem_cons, List.not_mem_nil, or_false] at hq
    rcases hq with rfl | rfl | rfl | rfl | rfl | rfl | rfl | rfl | rfl | rfl |
      rfl | rfl | rfl <;> norm_num)
  exact ⟨rfl, h.1, h.2.2⟩

/-- C9 (amended): on a sheet with at least one data row, distinct header
labels and a first row no wider than the headers, `get_fund_series`
resolves the fund exactly as the spec's two-step `locate_series`
description (and raises nothing): header match first, then first-row
match returning the values below the label row, else not-found. -/
theorem claim_C9 (t : Table) (name : String) (h1 : t.rows ≠ [])
    (h2 : t.headers.Nodup)
    (h3 : (t.rows.headD []).length ≤ t.headers.length) :
    getFundSeriesTable t name = .ok (locateSeriesSpec t name) := by
  obtain ⟨r0, rest, hr⟩ : ∃ r0 rest, t.rows = r0 :: rest := by
    cases ht : t.rows with
    | nil => exact absurd ht h1
    | cons a b => exact ⟨a, b, rfl⟩
  have hhead : t.rows.headD [] = r0 := by rw [hr]; rfl
  rw [hhead] at h3
  cases hh : t.headers with
  | nil =>
      have hr0 : r0 = [] := by
        rw [hh] at h3
        exact List.length_eq_zero.mp (Nat.le_zero.mp (by simpa using h3))
      unfold getFundSeriesTable locateSeriesSpec
      rw [if_pos (by simp [Table.isEmpty, hh])]
      rw [hh, hr, hr0]
      simp [firstIdx]
  | cons hd hds =>
      have hne : ¬ t.isEmpty = true := by simp [Table.isEmpty, hh, hr]
      unfold getFundSeriesTable locateSeriesSpec
      rw [if_neg hne]
      cases hfi : firstIdx (normKey name) (t.headers.map normKey) with
      | some j => simp [hfi]
      | none =>
          simp only [hfi, hhead, hr]
          cases hfr : firstIdx (normKey name) (r0.map normKey) with
          | none => simp [hfr]
          | some j =>
              have hjr : j < r0.length := by
                have := firstIdx_lt_length _ _ _ hfr
                simpa using this
              have hjh : j < t.headers.length := lt_of_lt_of_le hjr h3
              have hgetD : t.headers.getD j "" = t.headers.get ⟨j, hjh⟩ := by
                rw [List.getD_eq_getElem?_getD, List.getElem?_eq_getElem hjh]
                rfl
              have hfid : firstIdx (t.headers.getD j "") t.headers = some j := by
                rw [hgetD]
                exact firstIdx_get_self t.headers j hjh h2
              have hcnt : ¬ 2 ≤ t.headers.count (t.headers.getD j "") := by
                have := List.nodup_iff_count_le_one.mp h2 (t.headers.getD j "")
                omega
              rw [List.getD_eq_getElem?_getD] at hfid hcnt
              simp [hfr, hcnt, hfid]

/-- Counterexample for C9 as stated: (a) a sheet whose header matches the
fund but which has no data rows is `DataFrame.empty`, so the code returns
not-found where the claimed step 1 returns the (empty) coerced column;
(b) with duplicate header labels, the first-row step re-resolves the
column through its header label (`df.loc[1:, idx]`), which yields a
two-column `DataFrame`, so `_clean_numeric` raises
`AttributeError: 'DataFrame' object has no attribute 'str'` instead of
returning the matched column's values below the label row — `[2.0]`. -/
theorem claim_C9_counterexample :
    getFundSeriesTable ⟨["fund a"], []⟩ "Fund A" = .ok none
    ∧ locateSeriesSpec ⟨["fund a"], []⟩ "Fund A" = some []
    ∧ getFundSeriesTable ⟨["a", "a"], [["x", "fund b"], ["1", "2"]]⟩ "fund b"
      = .error "AttributeError: 'DataFrame' object has no attribute 'str'"
    ∧ locateSeriesSpec ⟨["a", "a"], [["x", "fund b"], ["1", "2"]]⟩ "fund b"
      = some [((2 : ℕ) : ℚ)] :=
  ⟨rfl, rfl, rfl, rfl⟩

/-- Witness for C9: the spec's own example sheet — header `"Fund A"` over
the values 1, 2, 3. -/
theorem claim_C9_witness :
    ((⟨["Fund A"], [["1"], ["2"], ["3"]]⟩ : Table).rows ≠ [])
    ∧ (⟨["Fund A"], [["1"], ["2"], ["3"]]⟩ : Table).headers.Nodup
    ∧ getFundSeriesTable ⟨["Fund A"], [["1"], ["2"], ["3"]]⟩ "Fund A"
      = .ok (locateSeriesSpec ⟨["Fund A"], [["1"], ["2"], ["3"]]⟩ "Fund A") := by
  refine ⟨by simp, by simp, claim_C9 _ _ (by simp) (by simp) (by simp)⟩

theorem Rf.fin_add_fin (a b : ℝ) : Rf.add (.fin a) (.fin b) = .fin (a + b) := rfl

theorem Rf.fin_sub_fin (a b : ℝ) : Rf.sub (.fin a) (.fin b) = .fin (a - b) := by
  simp [Rf.sub, Rf.add, Rf.neg, sub_eq_add_neg]

theorem Rf.mul_fin_fin (a b : ℝ) : Rf.mul (.fin a) (.fin b) = .fin (a * b) := rfl

theorem npPow_fin_neg_int (x : ℝ) (e : ℚ) (hx : x < 0) (he : e ≠ 0)
    (hint : qIsInt e = true) : npPow (Rf.fin x) e = Rf.fin (x ^ e.num) := by
  simp [npPow, he, hx.ne, asymm hx, hint]

theorem npPow_fin_zero (e : ℚ) (he : 0 < e) :
    npPow (Rf.fin (0 : ℝ)) e = Rf.fin 0 := by
  simp [npPow, he.ne', he]

/-- C5 (amended): whenever the cumulative return is *strictly* below
−100% and at least two usable returns remain (so the geometric-mean
exponent `1/n` is a genuine fraction) — and the caller did not explicitly
pass `periods_per_year = 0` — the annualized return is the NaN marker,
the cumulative return is reported as-is, and no exception is raised.
(At exactly −100%, or with a single usable return, the power has a zero
base or an integral exponent and the result is a defined finite value —
see the counterexample.) -/
theorem claim_C5 (s : List Qf) (ip : Bool) (pp : Option ℕ) (rp : Bool)
    (ds : Option (List (Option ℚ))) (c : ℚ)
    (hpp : pp ≠ some 0)
    (hc : cumulativeOf (ensure_returns s ip rp) = Qf.fin c)
    (hlt : c < -1)
    (hn : 2 ≤ (ensure_returns s ip rp).length) :
    ∃ vol mdd : Rf, compute_portfolio_metrics s ip pp rp ds
      = .ok ⟨Rf.fin ((c : ℝ)), Rf.nan, vol, mdd⟩ := by
  have hne : ensure_returns s ip rp ≠ [] := by
    intro h0
    rw [h0] at hn
    simp at hn
  have hinput : (if ip = true then s else ensure_returns s ip rp) ≠ [] := by
    cases ip with
    | false => simpa using hne
    | true => simpa using source_ne_nil_of_ensure_ne_nil s true rp hne
  obtain ⟨m, hm⟩ := max_drawdown_ok_of_ne_nil _ ip hinput
  have hppy0 : choosePeriods pp ds (ensure_returns s ip rp).length ≠ 0 :=
    choosePeriods_ne_zero pp ds _ hpp
  have hcast : (cumulativeOf (ensure_returns s ip rp)).toRf = Rf.fin ((c : ℝ)) := by
    rw [hc]
    rfl
  have hcr : ((c : ℝ)) < -1 := by exact_mod_cast hlt
  have hbneg : (1 : ℝ) + (c : ℝ) < 0 := by linarith
  have hgm : npPow (Rf.fin ((1 : ℝ) + (c : ℝ)))
      (1 / ((ensure_returns s ip rp).length : ℚ)) = Rf.nan :=
    npPow_fin_neg_notint _ _ hbneg
      (one_div_ne_zero (Nat.cast_ne_zero.mpr (by omega)))
      (qIsInt_one_div_nat _ hn)
  have hann : Rf.sub (npPow (Rf.add (Rf.fin 1)
      (Rf.sub (npPow (Rf.add (Rf.fin 1)
          (cumulativeOf (ensure_returns s ip rp)).toRf)
        (1 / ((ensure_returns s ip rp).length : ℚ))) (Rf.fin 1)))
      ((choosePeriods pp ds (ensure_returns s ip rp).length : ℚ)))
      (Rf.fin 1) = Rf.nan := by
    rw [hcast, Rf.fin_add_fin, hgm, Rf.nan_sub, Rf.add_fin_nan,
      npPow_nan _ (Nat.cast_ne_zero.mpr hppy0), Rf.nan_sub]
  refine ⟨Rf.mul (sqrtQf (variancePop (ensure_returns s ip rp)))
      (Rf.fin (Real.sqrt ((choosePeriods pp ds (ensure_returns s ip rp).length : ℝ)))),
    m.toRf, ?_⟩
  show metricsCore s ip (ensure_returns s ip rp)
      (choosePeriods pp ds (ensure_returns s ip rp).length) = _
  rw [metricsCore_ne_nil _ _ _ _ hne, hm]
  simp only [Except.map]
  rw [hann, hcast]

/-- Counterexample for C5 as stated: two inputs whose cumulative return is
≤ −100% yet whose annualized return is a defined finite value, not NaN.
(a) the single return −150%: cumulative return −3/2 ≤ −1, but with one
usable return the exponent `1/1` is integral and numpy computes
`(-1/2) ** 1.0 = -1/2`, giving annualized return −3/2;
(b) the returns `[0, −100%]`: cumulative return is exactly −1, the power
base is exactly `0`, and `0 ** 0.5 = 0` is defined, giving annualized
return −1.  In both cases the full Metrics Result is finite. -/
theorem claim_C5_counterexample :
    cumulativeOf (ensure_returns [Qf.fin (-3/2)] false false) = Qf.fin (-3/2)
    ∧ compute_portfolio_metrics [Qf.fin (-3/2)] false none false none
      = .ok ⟨Rf.fin (-3/2), Rf.fin (-3/2), Rf.fin 0, Rf.fin 0⟩
    ∧ cumulativeOf (ensure_returns [Qf.fin 0, Qf.fin (-1)] false false)
      = Qf.fin (-1)
    ∧ compute_portfolio_metrics [Qf.fin 0, Qf.fin (-1)] false none false none
      = .ok ⟨Rf.fin (-1), Rf.fin (-1), Rf.fin (1/2), Rf.fin (-1)⟩
    ∧ Rf.fin ((-3/2 : ℝ)) ≠ Rf.nan ∧ Rf.fin ((-1 : ℝ)) ≠ Rf.nan
    ∧ (-3/2 : ℚ) ≤ -1 ∧ (-1 : ℚ) ≤ -1 := by
  refine ⟨?_, ?_, ?_, ?_, by simp, by simp, by norm_num, by norm_num⟩
  · show cumulativeOf [Qf.fin (-3/2)] = Qf.fin (-3/2)
    norm_num [cumulativeOf, Qf.prod, Qf.sub, Qf.add, Qf.neg, Qf.mul, List.foldl,
      List.map]
  · have hcum : cumulativeOf [Qf.fin (-3/2)] = Qf.fin (-3/2) := by
      norm_num [cumulativeOf, Qf.prod, Qf.sub, Qf.add, Qf.neg, Qf.mul, List.foldl,
        List.map]
    have hmdd : max_drawdown (some [Qf.fin (-3/2)]) false = .ok (Qf.fin 0) := by
      norm_num [max_drawdown, cumprod1p, cumprodAux, runningMax, runningMaxAux,
        minReduce, Qf.max2, Qf.min2, Qf.div, Qf.sub, Qf.add, Qf.neg, Qf.mul,
        List.zipWith, List.foldl, List.map, max_def, min_def]
    have hvar : variancePop [Qf.fin (-3/2)] = Qf.fin 0 := by
      norm_num [variancePop, Qf.sum, Qf.div, Qf.sub, Qf.add, Qf.neg, Qf.mul,
        List.foldl, List.map, List.length]
    show metricsCore [Qf.fin (-3/2)] false [Qf.fin (-3/2)] 1 = _
    rw [metricsCore_ne_nil _ _ _ _ (by simp),
      show (if false = true then [Qf.fin (-3/2)]
        else [Qf.fin (-3/2)]) = [Qf.fin (-3/2)] from by simp, hmdd]
    simp only [Except.map, Except.ok.injEq, Metrics.mk.injEq]
    rw [hcum, hvar]
    refine ⟨?_, ?_, ?_, ?_⟩
    · norm_num [Qf.toRf]
    · rw [show ((Qf.fin (-3/2 : ℚ)).toRf) = Rf.fin ((-3/2 : ℚ) : ℝ) from rfl,
        Rf.fin_add_fin,
        npPow_fin_neg_int _ _ (by norm_num) (by norm_num) (by norm_num [qIsInt]),
        Rf.fin_sub_fin, Rf.fin_add_fin,
        npPow_fin_neg_int _ _ (by norm_num) (by norm_num) (by norm_num [qIsInt]),
        Rf.fin_sub_fin]
      norm_num
    · norm_num [sqrtQf, Rf.mul_fin_fin, Real.sqrt_one]
    · norm_num [Qf.toRf]
  · show cumulativeOf [Qf.fin 0, Qf.fin (-1)] = Qf.fin (-1)
    norm_num [cumulativeOf, Qf.prod, Qf.sub, Qf.add, Qf.neg, Qf.mul, List.foldl,
      List.map]
  · have hcum : cumulativeOf [Qf.fin 0, Qf.fin (-1)] = Qf.fin (-1) := by
      norm_num [cumulativeOf, Qf.prod, Qf.sub, Qf.add, Qf.neg, Qf.mul, List.foldl,
        List.map]
    have hmdd : max_drawdown (some [Qf.fin 0, Qf.fin (-1)]) false
        = .ok (Qf.fin (-1)) := by
      norm_num [max_drawdown, cumprod1p, cumprodAux, runningMax, runningMaxAux,
        minReduce, Qf.max2, Qf.min2, Qf.div, Qf.sub, Qf.add, Qf.neg, Qf.mul,
        List.zipWith, List.foldl, List.map, max_def, min_def]
    have hvar : variancePop [Qf.fin 0, Qf.fin (-1)] = Qf.fin (1/4) := by
      norm_num [variancePop, Qf.sum, Qf.div, Qf.sub, Qf.add, Qf.neg, Qf.mul,
        List.foldl, List.map, List.length]
    show metricsCore [Qf.fin 0, Qf.fin (-1)] false [Qf.fin 0, Qf.fin (-1)] 1 = _
    rw [metricsCore_ne_nil _ _ _ _ (by simp),
      show (if false = true then [Qf.fin 0, Qf.fin (-1)]
        else [Qf.fin 0, Qf.fin (-1)]) = [Qf.fin 0, Qf.fin (-1)] from by simp, hmdd]
    simp only [Except.map, Except.ok.injEq, Metrics.mk.injEq]
    rw [hcum, hvar]
    refine ⟨?_, ?_, ?_, ?_⟩
    · norm_num [Qf.toRf]
    · rw [show ((Qf.fin (-1 : ℚ)).toRf) = Rf.fin ((-1 : ℚ) : ℝ) from rfl,
        Rf.fin_add_fin,
        show ((1 : ℝ) + ((-1 : ℚ) : ℝ)) = 0 from by norm_num,
        npPow_fin_zero _ (by norm_num),
        Rf.fin_sub_fin, Rf.fin_add_fin,
        show ((1 : ℝ) + ((0 : ℝ) - 1)) = 0 from by norm_num,
        npPow_fin_zero _ (by norm_num),
        Rf.fin_sub_fin]
      norm_num
    · rw [show sqrtQf (Qf.fin (1/4)) = Rf.fin (Real.sqrt (((1/4 : ℚ) : ℝ))) from by
          simp [sqrtQf],
        show (((1/4 : ℚ) : ℝ)) = (1/2 : ℝ)^2 from by norm_num,
        Real.sqrt_sq (by norm_num : (0:ℝ) ≤ 1/2),
        Rf.mul_fin_fin]
      norm_num
    · norm_num [Qf.toRf]

/-- Witness for C5 (amended): the return series `[−200%, 0]` has
cumulative return −2 < −100% over two usable returns. -/
theorem claim_C5_witness :
    (none : Option ℕ) ≠ some 0
    ∧ cumulativeOf (ensure_returns [Qf.fin (-2), Qf.fin 0] false false)
      = Qf.fin (-2)
    ∧ (-2 : ℚ) < -1
    ∧ 2 ≤ (ensure_returns [Qf.fin (-2), Qf.fin 0] false false).length
    ∧ ∃ vol mdd : Rf,
        compute_portfolio_metrics [Qf.fin (-2), Qf.fin 0] false none false none
          = .ok ⟨Rf.fin ((-2 : ℚ) : ℝ), Rf.nan, vol, mdd⟩ := by
  have h1 : (none : Option ℕ) ≠ some 0 := by simp
  have h2 : cumulativeOf (ensure_returns [Qf.fin (-2), Qf.fin 0] false false)
      = Qf.fin (-2) := by
    show cumulativeOf [Qf.fin (-2), Qf.fin 0] = Qf.fin (-2)
    norm_num [cumulativeOf, Qf.prod, Qf.sub, Qf.add, Qf.neg, Qf.mul, List.foldl,
      List.map]
  have h3 : (-2 : ℚ) < -1 := by norm_num
  have h4 : 2 ≤ (ensure_returns [Qf.fin (-2), Qf.fin 0] false false).length := by
    show 2 ≤ ([Qf.fin (-2), Qf.fin 0] : List Qf).length
    simp
  exact ⟨h1, h2, h3, h4, claim_C5 _ _ _ _ _ _ h1 h2 h3 h4⟩
